import Mathlib

/-!
Shallow embedding of the real-time patient queue coordinator of the
Qure clinic-management backend (`backend/app/services/queue_service.py`).

All queue state lives in a per-date Redis keyspace; the keyspaces of
distinct dates are disjoint (every key embeds the date's ISO string), so
we model the state of one fixed queue-date.  Machine representation:

* the token counter (`queue:counter:<date>`, `INCR`) is a natural number,
  0 when the key is absent;
* each token record (`queue:token:<date>:<n>`, a Redis hash) is a
  `TokenHash`; the hash-to-record correspondence keeps the string fields
  that the code manipulates as strings (`status`, `is_walk_in`) and
  renders the three timestamp fields as `Option Nat` / `Nat`, where
  `none` stands for the empty string and `some t` for the ISO-8601
  rendering of instant `t` (instants are abstract naturals; the code
  only ever writes either `""` or `datetime.utcnow().isoformat()`);
* the check-in index (`queue:<date>`, a sorted set populated by
  `ZADD key {str(token_number): checkin_timestamp}` and read by
  `ZRANGE key 0 -1`) is a list of (member, score) pairs kept sorted the
  way Redis keeps them: ascending score, ties broken by the
  lexicographic (byte) order of the member strings, which here are the
  decimal renderings of the token numbers;
* the current-serving pointer (`queue:current:<date>`) is an
  `Option Nat`.

The `EXPIRE`/`ex=` calls give every key a 24-hour time-to-live; the main
model abstracts this away (all operations happen inside one retention
window).  The time-to-live of the token counter is modelled separately
and faithfully by `seqNext` below, because one claim is about it.
-/

namespace QureQueue

/-- Lexicographic (byte) order on character lists, as Redis compares the
member strings of a sorted set that share a score.  `clLe a b = true`
iff string `a` is less than or equal to `b` in that order. -/
def clLe : List Char → List Char → Bool
  | [], _ => true
  | _ :: _, [] => false
  | a :: as, b :: bs =>
    if a.toNat < b.toNat then true
    else if b.toNat < a.toNat then false
    else clLe as bs

/-- The decimal rendering of a token number, i.e. the character list of
Python's `str(token_number)` used as the sorted-set member. -/
def decStr (n : Nat) : List Char := (Nat.repr n).data

theorem clLe_total : ∀ a b : List Char, clLe a b = true ∨ clLe b a = true := by
  intro a
  induction a with
  | nil => intro b; left; rfl
  | cons c as ih =>
    intro b
    cases b with
    | nil => right; rfl
    | cons d bs =>
      by_cases h1 : c.toNat < d.toNat
      · left; simp [clLe, h1]
      · by_cases h2 : d.toNat < c.toNat
        · right; simp [clLe, h2]
        · rcases ih bs with h | h
          · left; simp [clLe, h1, h2, h]
          · right; simp [clLe, h1, h2, h]

theorem clLe_trans : ∀ a b c : List Char,
    clLe a b = true → clLe b c = true → clLe a c = true := by
  intro a
  induction a with
  | nil => intro b c _ _; rfl
  | cons x as ih =>
    intro b c hab hbc
    cases b with
    | nil => simp [clLe] at hab
    | cons y bs =>
      cases c with
      | nil => simp [clLe] at hbc
      | cons z cs =>
        simp only [clLe] at hab hbc ⊢
        by_cases hxy : x.toNat < y.toNat
        · by_cases hyz : y.toNat < z.toNat
          · have : x.toNat < z.toNat := Nat.lt_trans hxy hyz
            simp [this]
          · by_cases hzy : z.toNat < y.toNat
            · simp [hyz, hzy] at hbc
            · have hy : y.toNat = z.toNat := Nat.le_antisymm (Nat.le_of_not_lt hzy) (Nat.le_of_not_lt hyz)
              have : x.toNat < z.toNat := hy ▸ hxy
              simp [this]
        · by_cases hyx : y.toNat < x.toNat
          · simp [hxy, hyx] at hab
          · have hx : x.toNat = y.toNat := Nat.le_antisymm (Nat.le_of_not_lt hyx) (Nat.le_of_not_lt hxy)
            by_cases hyz : y.toNat < z.toNat
            · have : x.toNat < z.toNat := hx ▸ hyz
              simp [this]
            · by_cases hzy : z.toNat < y.toNat
              · simp [hyz, hzy] at hbc
              · simp only [hxy, hyx, if_neg, ite_false] at hab
                simp only [hyz, hzy, ite_false] at hbc
                have hxz : ¬ x.toNat < z.toNat := by
                  rw [hx]; exact hyz
                have hzx : ¬ z.toNat < x.toNat := by
                  rw [hx]; exact hzy
                simp only [hxz, hzx, ite_false]
                exact ih bs cs hab hbc

/-- A token record hash (`queue:token:<date>:<n>`), with the fields
written by `check_in` / `update_status`.  Timestamp fields use
`Option Nat` (`none` = empty string); `is_walk_in` keeps its literal
wire string. -/
structure TokenHash where
  token_number : Nat
  patient_id : Nat
  patient_name : String
  appointment_id : Option Nat
  status : String
  checkin_time : Nat
  called_time : Option Nat
  completed_time : Option Nat
  is_walk_in : String
  chief_complaint : String
deriving Repr, DecidableEq

/-- A token as parsed and returned by `get_today_queue`. -/
structure Token where
  token_number : Nat
  patient_id : Nat
  patient_name : String
  appointment_id : Option Nat
  status : String
  checkin_time : Nat
  called_time : Option Nat
  completed_time : Option Nat
  is_walk_in : Bool
  chief_complaint : Option String
deriving Repr, DecidableEq

/-- The dict returned by `update_status` (it omits `chief_complaint`). -/
structure UpdToken where
  token_number : Nat
  patient_id : Nat
  patient_name : String
  appointment_id : Option Nat
  status : String
  checkin_time : Nat
  called_time : Option Nat
  completed_time : Option Nat
  is_walk_in : Bool
deriving Repr, DecidableEq

/-- The per-date keyspace state. -/
structure QState where
  counter : Nat
  tokens : List (Nat × TokenHash)
  zindex : List (Nat × Nat)
  current : Option Nat
deriving Repr, DecidableEq

/-- Redis sorted-set order on (member, score) pairs: ascending score,
score ties broken by byte-lexicographic order of the member string
(the decimal rendering of the member number). -/
def zkeyLeB (a b : Nat × Nat) : Bool :=
  if a.2 < b.2 then true
  else if b.2 < a.2 then false
  else clLe (decStr a.1) (decStr b.1)

def zr (a b : Nat × Nat) : Prop := zkeyLeB a b = true

instance : DecidableRel zr := fun a b => by
  unfold zr; infer_instance

instance : IsTotal (Nat × Nat) zr := by
  constructor
  intro a b
  unfold zr zkeyLeB
  by_cases h1 : a.2 < b.2
  · left; simp [h1]
  · by_cases h2 : b.2 < a.2
    · right; simp [h2]
    · rcases clLe_total (decStr a.1) (decStr b.1) with h | h
      · left; simp [h1, h2, h]
      · right; simp [h1, h2, h]

instance : IsTrans (Nat × Nat) zr := by
  constructor
  intro a b c hab hbc
  unfold zr zkeyLeB at hab hbc ⊢
  by_cases h1 : a.2 < b.2
  · by_cases h2 : b.2 < c.2
    · simp [Nat.lt_trans h1 h2]
    · by_cases h3 : c.2 < b.2
      · simp [h2, h3] at hbc
      · have hbceq : b.2 = c.2 := Nat.le_antisymm (Nat.le_of_not_lt h3) (Nat.le_of_not_lt h2)
        simp [hbceq ▸ h1]
  · by_cases h2 : b.2 < a.2
    · simp [h1, h2] at hab
    · have habeq : a.2 = b.2 := Nat.le_antisymm (Nat.le_of_not_lt h2) (Nat.le_of_not_lt h1)
      by_cases h3 : b.2 < c.2
      · simp [habeq ▸ h3]
      · by_cases h4 : c.2 < b.2
        · simp [h3, h4] at hbc
        · simp only [h1, h2, ite_false] at hab
          simp only [h3, h4, ite_false] at hbc
          have h5 : ¬ a.2 < c.2 := by rw [habeq]; exact h3
          have h6 : ¬ c.2 < a.2 := by rw [habeq]; exact h4
          simp only [h5, h6, ite_false]
          exact clLe_trans _ _ _ hab hbc

/-- Python's `str(is_walk_in)` on a `bool`. -/
def pyStrBool (b : Bool) : String := if b then "True" else "False"

/-- Python's `appointment_id or ""` applied to an optional integer
(note `0 or ""` is `""`), stored back as an optional integer since
`int`-string serialization is injective and inverted on read. -/
def pyOrEmpty : Option Nat → Option Nat
  | some v => if v = 0 then none else some v
  | none => none

/-- Python's `chief_complaint or ""`. -/
def pyOrEmptyStr : Option String → String
  | some s => s
  | none => ""

/-- `HGETALL`/`EXISTS` view of the token-record store: the hash stored
under token-number key `n`, if that key exists. -/
def hget : List (Nat × TokenHash) → Nat → Option TokenHash
  | [], _ => none
  | p :: ts, n => if p.1 = n then some p.2 else hget ts n

/-- `HSET` of a whole record (or of fields of an existing record whose
updated value is `h`): overwrite the hash at key `n`, creating the key
when absent. -/
def hsetTok : List (Nat × TokenHash) → Nat → TokenHash → List (Nat × TokenHash)
  | [], n, h => [(n, h)]
  | p :: ts, n, h => if p.1 = n then (n, h) :: ts else p :: hsetTok ts n h

/-- `ZADD key {str(m): sc}`: put member `m` at score `sc`, replacing any
previous score for `m`, keeping the set sorted in Redis order. -/
def zadd (z : List (Nat × Nat)) (m : Nat) (sc : Nat) : List (Nat × Nat) :=
  List.orderedInsert zr (m, sc) (z.filter (fun p => !(p.1 == m)))

/-- `ZRANGE key 0 -1`: all members in Redis order. -/
def zrange (z : List (Nat × Nat)) : List Nat := z.map (fun p => p.1)

/-- The keyspace of a date nothing has touched yet. -/
def initState : QState := { counter := 0, tokens := [], zindex := [], current := none }

/-- `QueueService._get_next_token_number`: `INCR` of the counter key (a
missing key counts as 0).  The `EXPIRE counter_key 86400` that follows
the `INCR` is modelled by `seqNext` below. -/
def nextTokenNumber (s : QState) : Nat × QState :=
  (s.counter + 1, { s with counter := s.counter + 1 })

/-- The `token_data` dict built by `check_in` for token number `n` at
instant `now`. -/
def newTokenHash (n : Nat) (now : Nat) (patient_id : Nat) (patient_name : String)
    (appointment_id : Option Nat) (is_walk_in : Bool)
    (chief_complaint : Option String) : TokenHash :=
  { token_number := n
    patient_id := patient_id
    patient_name := patient_name
    appointment_id := pyOrEmpty appointment_id
    status := "WAITING"
    checkin_time := now
    called_time := none
    completed_time := none
    is_walk_in := pyStrBool is_walk_in
    chief_complaint := pyOrEmptyStr chief_complaint }

/-- `QueueService.check_in`: obtain the next token number, write the
token hash, and add the member to the check-in index at score
`checkin_time.timestamp()`.  Returns the written token data. -/
def check_in (s : QState) (now : Nat) (patient_id : Nat) (patient_name : String)
    (appointment_id : Option Nat) (is_walk_in : Bool)
    (chief_complaint : Option String) : TokenHash × QState :=
  let p := nextTokenNumber s
  let h := newTokenHash p.1 now patient_id patient_name appointment_id
    is_walk_in chief_complaint
  (h, { p.2 with
          tokens := hsetTok p.2.tokens p.1 h
          zindex := zadd p.2.zindex p.1 now })

/-- The parse of one token hash performed inside `get_today_queue`
(empty strings become `None`, `is_walk_in` compares against `"True"`). -/
def parseTok (h : TokenHash) : Token :=
  { token_number := h.token_number
    patient_id := h.patient_id
    patient_name := h.patient_name
    appointment_id := h.appointment_id
    status := h.status
    checkin_time := h.checkin_time
    called_time := h.called_time
    completed_time := h.completed_time
    is_walk_in := h.is_walk_in == "True"
    chief_complaint := if h.chief_complaint = "" then none else some h.chief_complaint }

/-- `QueueService.get_today_queue`: `ZRANGE` the index, `HGETALL` each
member, silently skipping members whose record is gone. -/
def get_today_queue (s : QState) : List Token :=
  (zrange s.zindex).filterMap (fun n => (hget s.tokens n).map parseTok)

/-- The dict built at the end of `update_status` from the re-read hash
(it has no `chief_complaint` key). -/
def mkUpd (h : TokenHash) : UpdToken :=
  { token_number := h.token_number
    patient_id := h.patient_id
    patient_name := h.patient_name
    appointment_id := h.appointment_id
    status := h.status
    checkin_time := h.checkin_time
    called_time := h.called_time
    completed_time := h.completed_time
    is_walk_in := h.is_walk_in == "True" }

/-- `QueueService.update_status`: `EXISTS` check first (returning `None`
with no mutation on a missing token), then `HSET status`; on
`WITH_DOCTOR` also `HSET called_time` and `SET` the current pointer; on
`COMPLETED`/`NO_SHOW` also `HSET completed_time` and delete the pointer
only when it currently equals this token's number. -/
def update_status (s : QState) (now : Nat) (token_number : Nat)
    (new_status : String) : Option UpdToken × QState :=
  match hget s.tokens token_number with
  | none => (none, s)
  | some h =>
    let h1 := { h with status := new_status }
    if new_status = "WITH_DOCTOR" then
      let h2 := { h1 with called_time := some now }
      (some (mkUpd h2),
       { s with tokens := hsetTok s.tokens token_number h2
                current := some token_number })
    else if new_status = "COMPLETED" ∨ new_status = "NO_SHOW" then
      let h2 := { h1 with completed_time := some now }
      (some (mkUpd h2),
       { s with tokens := hsetTok s.tokens token_number h2
                current := if s.current = some token_number then none
                           else s.current })
    else
      (some (mkUpd h1),
       { s with tokens := hsetTok s.tokens token_number h1 })

/-- `QueueService.get_current_serving`. -/
def get_current_serving (s : QState) : Option Nat := s.current

/-- `QueueService.call_next_patient`: scan `get_today_queue` in order and
return `update_status(..., WITH_DOCTOR)` of the first WAITING token;
`None` when no token is WAITING. -/
def call_next_patient (s : QState) (now : Nat) : Option UpdToken × QState :=
  match (get_today_queue s).find? (fun t => t.status == "WAITING") with
  | some t => update_status s now t.token_number "WITH_DOCTOR"
  | none => (none, s)

/-- `QueueService.skip_patient`. -/
def skip_patient (s : QState) (now : Nat) (token_number : Nat) :
    Option UpdToken × QState :=
  update_status s now token_number "SKIPPED"

/-- `QueueService.recall_patient`. -/
def recall_patient (s : QState) (now : Nat) (token_number : Nat) :
    Option UpdToken × QState :=
  update_status s now token_number "WAITING"

/-- The summary dict of `get_queue_summary` (the constant `date` string
field is omitted). -/
structure Summary where
  total_tokens : Nat
  checked_in : Nat
  waiting : Nat
  with_doctor : Nat
  completed : Nat
  skipped : Nat
  no_show : Nat
  current_token : Option Nat
  tokens : List Token
deriving Repr, DecidableEq

/-- The per-token counting step of `get_queue_summary`'s loop. -/
def summaryStep (sm : Summary) (t : Token) : Summary :=
  if t.status == "WAITING" then { sm with waiting := sm.waiting + 1 }
  else if t.status == "WITH_DOCTOR" then { sm with with_doctor := sm.with_doctor + 1 }
  else if t.status == "COMPLETED" then { sm with completed := sm.completed + 1 }
  else if t.status == "SKIPPED" then { sm with skipped := sm.skipped + 1 }
  else if t.status == "NO_SHOW" then { sm with no_show := sm.no_show + 1 }
  else sm

/-- `QueueService.get_queue_summary`. -/
def get_queue_summary (s : QState) : Summary :=
  let tokens := get_today_queue s
  let base : Summary := {
    total_tokens := tokens.length
    checked_in := 0
    waiting := 0
    with_doctor := 0
    completed := 0
    skipped := 0
    no_show := 0
    current_token := get_current_serving s
    tokens := tokens }
  let filled := tokens.foldl summaryStep base
  { filled with checked_in := filled.waiting + filled.with_doctor }

/-- One queue operation, carrying the physical instant at which its
handler reads the clock. -/
inductive Op where
  | checkIn (now : Nat) (patient_id : Nat) (patient_name : String)
      (appointment_id : Option Nat) (is_walk_in : Bool)
      (chief_complaint : Option String)
  | updStatus (now : Nat) (token_number : Nat) (new_status : String)
  | callNext (now : Nat)
  | skipTok (now : Nat) (token_number : Nat)
  | recallTok (now : Nat) (token_number : Nat)

/-- The state transformer of one operation. -/
def applyOp (s : QState) : Op → QState
  | .checkIn now pid pname aid w cc => (check_in s now pid pname aid w cc).2
  | .updStatus now n st => (update_status s now n st).2
  | .callNext now => (call_next_patient s now).2
  | .skipTok now n => (skip_patient s now n).2
  | .recallTok now n => (recall_patient s now n).2

/-- Run a sequence of operations. -/
def run (s : QState) (ops : List Op) : QState := ops.foldl applyOp s

/-- A state reachable from the untouched keyspace by some operation
sequence. -/
def Reachable (s : QState) : Prop := ∃ ops : List Op, s = run initState ops

/-- Modelled Redis time-to-live of the token counter, from
`_get_next_token_number`: the state is `none` when the key is absent or
expired, otherwise `some (value, deadline)` where `deadline` is the
absolute instant at which the key disappears.  A call at instant `now`
performs `INCR` (a missing or expired key restarts from 0) and then
`EXPIRE counter_key 86400`, which restarts the time-to-live at 24 hours
from `now`. -/
def seqNext (s : Option (Nat × Nat)) (now : Nat) : Nat × Option (Nat × Nat) :=
  let live : Nat :=
    match s with
    | some p => if now < p.2 then p.1 else 0
    | none => 0
  (live + 1, some (live + 1, now + 86400))

/-- Iterate `seqNext` over a list of call instants, returning the issued
numbers in order and the final counter-key state. -/
def seqRun (s : Option (Nat × Nat)) : List Nat → List Nat × Option (Nat × Nat)
  | [] => ([], s)
  | t :: ts =>
    let p := seqNext s t
    let q := seqRun p.2 ts
    (p.1 :: q.1, q.2)

/-! ### Basic lemmas about the store primitives -/

theorem hget_hsetTok (ts : List (Nat × TokenHash)) (n : Nat) (h : TokenHash)
    (m : Nat) : hget (hsetTok ts n h) m = if m = n then some h else hget ts m := by
  induction ts with
  | nil =>
    by_cases hm : m = n
    · simp [hsetTok, hget, hm]
    · have hnm : ¬ n = m := fun hc => hm hc.symm
      simp [hsetTok, hget, hm, hnm]
  | cons p ts ih =>
    by_cases hp : p.1 = n
    · by_cases hm : m = n
      · simp [hsetTok, hget, hp, hm]
      · have hnm : ¬ n = m := fun hc => hm hc.symm
        have hpm : ¬ p.1 = m := by rw [hp]; exact hnm
        simp [hsetTok, hget, hp, hm, hnm, hpm]
    · by_cases hm : p.1 = m
      · have hmn : ¬ m = n := fun hc => hp (hm.trans hc)
        simp [hsetTok, hget, hp, hm, hmn]
      · simp [hsetTok, hget, hp, hm, ih]

theorem hget_mem {ts : List (Nat × TokenHash)} {n : Nat} {h : TokenHash}
    (hg : hget ts n = some h) : (n, h) ∈ ts := by
  induction ts with
  | nil => simp [hget] at hg
  | cons p ts ih =>
    cases p with
    | mk a b =>
      by_cases hp : a = n
      · simp [hget, hp] at hg
        subst hp
        subst hg
        exact List.mem_cons_self _ _
      · simp [hget, hp] at hg
        exact List.mem_cons_of_mem _ (ih hg)

theorem mem_hsetTok {ts : List (Nat × TokenHash)} {n : Nat} {h : TokenHash}
    {p : Nat × TokenHash} (hp : p ∈ hsetTok ts n h) : p = (n, h) ∨ p ∈ ts := by
  induction ts with
  | nil => simp [hsetTok] at hp; left; exact hp
  | cons q ts ih =>
    by_cases hq : q.1 = n
    · simp [hsetTok, hq] at hp
      rcases hp with hp | hp
      · left; exact hp
      · right; exact List.mem_cons_of_mem _ hp
    · simp [hsetTok, hq] at hp
      rcases hp with hp | hp
      · right; rw [hp]; exact List.mem_cons_self _ _
      · rcases ih hp with h1 | h1
        · left; exact h1
        · right; exact List.mem_cons_of_mem _ h1

theorem mem_zadd_self (z : List (Nat × Nat)) (m sc : Nat) :
    (m, sc) ∈ zadd z m sc := by
  unfold zadd
  exact (List.mem_orderedInsert zr).mpr (Or.inl rfl)

theorem mem_zadd {z : List (Nat × Nat)} {m sc : Nat} {q : Nat × Nat}
    (hq : q ∈ zadd z m sc) : q = (m, sc) ∨ (q ∈ z ∧ q.1 ≠ m) := by
  unfold zadd at hq
  rcases (List.mem_orderedInsert zr).mp hq with h1 | h1
  · left; exact h1
  · right
    have := List.mem_filter.mp h1
    refine ⟨this.1, ?_⟩
    have hb := this.2
    simp at hb
    exact hb

theorem sorted_zadd {z : List (Nat × Nat)} (hz : List.Sorted zr z)
    (m sc : Nat) : List.Sorted zr (zadd z m sc) :=
  List.Sorted.orderedInsert (m, sc) _ (List.Pairwise.filter _ hz)

theorem zr_cases {a b : Nat × Nat} (h : zr a b) :
    a.2 < b.2 ∨ (a.2 = b.2 ∧ clLe (decStr a.1) (decStr b.1) = true) := by
  unfold zr zkeyLeB at h
  by_cases h1 : a.2 < b.2
  · left; exact h1
  · by_cases h2 : b.2 < a.2
    · simp [h1, h2] at h
    · right
      refine ⟨Nat.le_antisymm (Nat.le_of_not_lt h2) (Nat.le_of_not_lt h1), ?_⟩
      simpa [h1, h2] using h

/-! ### The reachable-state invariant -/

/-- Correspondence between a check-in-index entry and the token record
it points at: the record exists, its `checkin_time` is the entry's
score, and its `token_number` field is the entry's member. -/
def zcorr (s : QState) (q : Nat × Nat) : Prop :=
  ∃ h, hget s.tokens q.1 = some h ∧ h.checkin_time = q.2 ∧ h.token_number = q.1

/-- Structural invariant of every reachable per-date state:
token-record keys never exceed the counter and agree with the stored
`token_number` field; every index entry points at an existing record
with matching instant and number; the index is in Redis sorted order;
and the current-serving pointer, when set, names an existing record
whose `called_time` is set. -/
def Inv (s : QState) : Prop :=
  (∀ p ∈ s.tokens, p.1 ≤ s.counter ∧ p.2.token_number = p.1) ∧
  (∀ q ∈ s.zindex, zcorr s q) ∧
  List.Sorted zr s.zindex ∧
  (∀ n, s.current = some n → ∃ h, hget s.tokens n = some h ∧ h.called_time ≠ none)

theorem inv_initState : Inv initState := by
  refine ⟨?_, ?_, ?_, ?_⟩ <;> simp [initState, zcorr, List.Sorted]

/-! ### Shape lemmas for the operations -/

theorem check_in_eq (s : QState) (now pid : Nat) (pn : String) (aid : Option Nat)
    (w : Bool) (cc : Option String) :
    check_in s now pid pn aid w cc =
      (newTokenHash (s.counter + 1) now pid pn aid w cc,
       { counter := s.counter + 1
         tokens := hsetTok s.tokens (s.counter + 1)
           (newTokenHash (s.counter + 1) now pid pn aid w cc)
         zindex := zadd s.zindex (s.counter + 1) now
         current := s.current }) := rfl

theorem update_status_not_found {s : QState} {now n : Nat} {st : String}
    (hg : hget s.tokens n = none) : update_status s now n st = (none, s) := by
  unfold update_status; rw [hg]

theorem update_status_wd {s : QState} {now n : Nat} {h : TokenHash}
    (hg : hget s.tokens n = some h) :
    update_status s now n "WITH_DOCTOR" =
      (some (mkUpd { h with status := "WITH_DOCTOR", called_time := some now }),
       { s with
           tokens := hsetTok s.tokens n
             { h with status := "WITH_DOCTOR", called_time := some now }
           current := some n }) := by
  unfold update_status; rw [hg]; simp

theorem update_status_done {s : QState} {now n : Nat} {st : String} {h : TokenHash}
    (hg : hget s.tokens n = some h) (hst : st = "COMPLETED" ∨ st = "NO_SHOW") :
    update_status s now n st =
      (some (mkUpd { h with status := st, completed_time := some now }),
       { s with
           tokens := hsetTok s.tokens n
             { h with status := st, completed_time := some now }
           current := if s.current = some n then none else s.current }) := by
  unfold update_status
  rw [hg]
  rcases hst with h' | h' <;> subst h' <;> simp

theorem update_status_other {s : QState} {now n : Nat} {st : String} {h : TokenHash}
    (hg : hget s.tokens n = some h) (hwd : ¬ st = "WITH_DOCTOR")
    (hdone : ¬ (st = "COMPLETED" ∨ st = "NO_SHOW")) :
    update_status s now n st =
      (some (mkUpd { h with status := st }),
       { s with tokens := hsetTok s.tokens n { h with status := st } }) := by
  unfold update_status
  rw [hg]
  simp [hwd, hdone]

/-! ### Invariant preservation -/

theorem tokens_part_hset {s : QState}
    (hInv1 : ∀ p ∈ s.tokens, p.1 ≤ s.counter ∧ p.2.token_number = p.1)
    {n : Nat} {h h2 : TokenHash} (hg : hget s.tokens n = some h)
    (htn : h2.token_number = h.token_number) :
    ∀ p ∈ hsetTok s.tokens n h2, p.1 ≤ s.counter ∧ p.2.token_number = p.1 := by
  intro p hp
  rcases mem_hsetTok hp with hp | hp
  · subst hp
    have hold := hInv1 (n, h) (hget_mem hg)
    exact ⟨hold.1, htn.trans hold.2⟩
  · exact hInv1 p hp

theorem zcorr_part_hset {s : QState} (hInv2 : ∀ q ∈ s.zindex, zcorr s q)
    {n : Nat} {h h2 : TokenHash} (hg : hget s.tokens n = some h)
    (hck : h2.checkin_time = h.checkin_time)
    (htn : h2.token_number = h.token_number) :
    ∀ q ∈ s.zindex, ∃ h', hget (hsetTok s.tokens n h2) q.1 = some h' ∧
      h'.checkin_time = q.2 ∧ h'.token_number = q.1 := by
  intro q hq
  obtain ⟨h', hg', hc', hn'⟩ := hInv2 q hq
  by_cases hqn : q.1 = n
  · have hh : h' = h := by
      rw [hqn, hg] at hg'
      exact (Option.some_inj.mp hg').symm
    refine ⟨h2, ?_, ?_, ?_⟩
    · rw [hget_hsetTok]; simp [hqn]
    · rw [hck, ← hh]; exact hc'
    · rw [htn, ← hh]; exact hn'
  · refine ⟨h', ?_, hc', hn'⟩
    rw [hget_hsetTok]
    simp [hqn]
    exact hg'

theorem inv_check_in (s : QState) (now pid : Nat) (pn : String)
    (aid : Option Nat) (w : Bool) (cc : Option String) (hs : Inv s) :
    Inv (check_in s now pid pn aid w cc).2 := by
  obtain ⟨h1, h2, h3, h4⟩ := hs
  rw [check_in_eq]
  refine ⟨?_, ?_, ?_, ?_⟩
  · intro p hp
    rcases mem_hsetTok hp with hp | hp
    · subst hp; exact ⟨Nat.le_refl _, rfl⟩
    · have := h1 p hp
      exact ⟨Nat.le_trans this.1 (Nat.le_succ _), this.2⟩
  · intro q hq
    rcases mem_zadd hq with hq | ⟨hq, hne⟩
    · subst hq
      refine ⟨newTokenHash (s.counter + 1) now pid pn aid w cc, ?_, rfl, rfl⟩
      rw [hget_hsetTok]
      simp
    · obtain ⟨h', hg', hc', hn'⟩ := h2 q hq
      refine ⟨h', ?_, hc', hn'⟩
      show hget (hsetTok s.tokens (s.counter + 1) _) q.1 = some h'
      rw [hget_hsetTok]
      simp [hne]
      exact hg'
  · exact sorted_zadd h3 _ _
  · intro n hcur
    obtain ⟨h', hg', hcl'⟩ := h4 n hcur
    have hlt : n ≤ s.counter := (h1 (n, h') (hget_mem hg')).1
    have hne : ¬ n = s.counter + 1 := by omega
    refine ⟨h', ?_, hcl'⟩
    show hget (hsetTok s.tokens (s.counter + 1) _) n = some h'
    rw [hget_hsetTok]
    simp [hne]
    exact hg'

theorem inv_update_status (s : QState) (now n : Nat) (st : String) (hs : Inv s) :
    Inv (update_status s now n st).2 := by
  obtain ⟨h1, h2, h3, h4⟩ := hs
  cases hg : hget s.tokens n with
  | none => rw [update_status_not_found hg]; exact ⟨h1, h2, h3, h4⟩
  | some h =>
    by_cases hwd : st = "WITH_DOCTOR"
    · subst hwd
      rw [update_status_wd hg]
      refine ⟨tokens_part_hset h1 hg rfl, zcorr_part_hset h2 hg rfl rfl, h3, ?_⟩
      intro m hm
      simp at hm
      subst hm
      refine ⟨{ h with status := "WITH_DOCTOR", called_time := some now }, ?_, ?_⟩
      · rw [hget_hsetTok]; simp
      · simp
    · by_cases hdone : st = "COMPLETED" ∨ st = "NO_SHOW"
      · rw [update_status_done hg hdone]
        refine ⟨tokens_part_hset h1 hg rfl, zcorr_part_hset h2 hg rfl rfl, h3, ?_⟩
        intro m hm
        simp at hm
        by_cases hc : s.current = some n
        · simp [hc] at hm
        · simp [hc] at hm
          obtain ⟨h', hg', hcl'⟩ := h4 m hm
          have hmn : ¬ m = n := by
            intro he
            subst he
            exact hc hm
          refine ⟨h', ?_, hcl'⟩
          rw [hget_hsetTok]
          simp [hmn]
          exact hg'
      · rw [update_status_other hg hwd hdone]
        refine ⟨tokens_part_hset h1 hg rfl, zcorr_part_hset h2 hg rfl rfl, h3, ?_⟩
        intro m hm
        obtain ⟨h', hg', hcl'⟩ := h4 m hm
        by_cases hmn : m = n
        · have hh : h' = h := by
            rw [hmn, hg] at hg'
            exact (Option.some_inj.mp hg').symm
          refine ⟨{ h with status := st }, ?_, ?_⟩
          · rw [hget_hsetTok]; simp [hmn]
          · show h.called_time ≠ none
            rw [← hh]
            exact hcl'
        · refine ⟨h', ?_, hcl'⟩
          rw [hget_hsetTok]
          simp [hmn]
          exact hg'

theorem inv_applyOp (s : QState) (op : Op) (hs : Inv s) : Inv (applyOp s op) := by
  cases op with
  | checkIn now pid pn aid w cc => exact inv_check_in s now pid pn aid w cc hs
  | updStatus now n st => exact inv_update_status s now n st hs
  | callNext now =>
    show Inv (call_next_patient s now).2
    unfold call_next_patient
    cases hf : (get_today_queue s).find? (fun t => t.status == "WAITING") with
    | none => exact hs
    | some t => exact inv_update_status s now t.token_number "WITH_DOCTOR" hs
  | skipTok now m => exact inv_update_status s now m "SKIPPED" hs
  | recallTok now m => exact inv_update_status s now m "WAITING" hs

theorem inv_run (s : QState) (ops : List Op) (hs : Inv s) : Inv (run s ops) := by
  induction ops generalizing s with
  | nil => exact hs
  | cons op rest ih => exact ih (applyOp s op) (inv_applyOp s op hs)

theorem inv_reachable {s : QState} (hs : Reachable s) : Inv s := by
  obtain ⟨ops, rfl⟩ := hs
  exact inv_run initState ops inv_initState

/-! ### Frame behaviour of update_status -/

theorem update_status_token_eq (s : QState) (now n : Nat) (st : String)
    (h : TokenHash) (hg : hget s.tokens n = some h) :
    ∃ h2, (update_status s now n st).2.tokens = hsetTok s.tokens n h2 ∧
      (update_status s now n st).2.zindex = s.zindex ∧
      (update_status s now n st).2.counter = s.counter ∧
      h2.status = st ∧
      h2.called_time = (if st = "WITH_DOCTOR" then some now else h.called_time) ∧
      h2.completed_time =
        (if st = "COMPLETED" ∨ st = "NO_SHOW" then some now else h.completed_time) ∧
      h2.checkin_time = h.checkin_time ∧
      h2.token_number = h.token_number ∧
      h2.patient_id = h.patient_id ∧
      h2.patient_name = h.patient_name ∧
      h2.appointment_id = h.appointment_id ∧
      h2.is_walk_in = h.is_walk_in ∧
      h2.chief_complaint = h.chief_complaint := by
  by_cases hwd : st = "WITH_DOCTOR"
  · subst hwd
    rw [update_status_wd hg]
    refine ⟨_, rfl, rfl, rfl, rfl, ?_, ?_, rfl, rfl, rfl, rfl, rfl, rfl, rfl⟩
    · rw [if_pos rfl]
    · rw [if_neg (by decide)]
  · by_cases hdone : st = "COMPLETED" ∨ st = "NO_SHOW"
    · rw [update_status_done hg hdone]
      refine ⟨_, rfl, rfl, rfl, rfl, ?_, ?_, rfl, rfl, rfl, rfl, rfl, rfl, rfl⟩
      · rw [if_neg hwd]
      · rw [if_pos hdone]
    · rw [update_status_other hg hwd hdone]
      refine ⟨_, rfl, rfl, rfl, rfl, ?_, ?_, rfl, rfl, rfl, rfl, rfl, rfl, rfl⟩
      · rw [if_neg hwd]
      · rw [if_neg hdone]

/-! ### The claims -/

/-- C4: `update_status` returns not-found exactly when no token record
with the given number exists for the date, and in that case the whole
state (token records, check-in index, counter, current pointer) is
unchanged: the error is detected before any mutation. -/
theorem C4_update_status_not_found_iff (s : QState) (now n : Nat) (st : String) :
    ((update_status s now n st).1 = none ↔ hget s.tokens n = none) ∧
    (hget s.tokens n = none → (update_status s now n st).2 = s) := by
  cases hg : hget s.tokens n with
  | none => rw [update_status_not_found hg]; simp
  | some h =>
    constructor
    · constructor
      · intro h1
        exfalso
        by_cases hwd : st = "WITH_DOCTOR"
        · subst hwd; rw [update_status_wd hg] at h1; simp at h1
        · by_cases hdone : st = "COMPLETED" ∨ st = "NO_SHOW"
          · rw [update_status_done hg hdone] at h1; simp at h1
          · rw [update_status_other hg hwd hdone] at h1; simp at h1
      · intro h1; simp [hg] at h1
    · intro h1; simp [hg] at h1

/-- C4 witness: on the untouched keyspace, updating token 1 reports
not-found and leaves the state unchanged. -/
theorem C4_update_status_not_found_iff_witness :
    (update_status initState 0 1 "COMPLETED").1 = none ∧
    (update_status initState 0 1 "COMPLETED").2 = initState :=
  ⟨(C4_update_status_not_found_iff initState 0 1 "COMPLETED").1.mpr (by decide),
   (C4_update_status_not_found_iff initState 0 1 "COMPLETED").2 (by decide)⟩

/-- C5: any `update_status` (hence any `skip`/`recall`, which are
shorthands for it) leaves the check-in index and the counter untouched
and, for every stored token record, preserves `checkin_time`,
`token_number`, `patient_id`, `patient_name`, `appointment_id`,
`is_walk_in` and `chief_complaint`; only `status`, `called_time` and
`completed_time` can change. -/
theorem C5_status_mutation_frame (s : QState) (now n : Nat) (st : String) :
    (update_status s now n st).2.zindex = s.zindex ∧
    (update_status s now n st).2.counter = s.counter ∧
    skip_patient s now n = update_status s now n "SKIPPED" ∧
    recall_patient s now n = update_status s now n "WAITING" ∧
    (∀ m h, hget s.tokens m = some h →
      ∃ h', hget (update_status s now n st).2.tokens m = some h' ∧
        h'.checkin_time = h.checkin_time ∧
        h'.token_number = h.token_number ∧
        h'.patient_id = h.patient_id ∧
        h'.patient_name = h.patient_name ∧
        h'.appointment_id = h.appointment_id ∧
        h'.is_walk_in = h.is_walk_in ∧
        h'.chief_complaint = h.chief_complaint) := by
  cases hg : hget s.tokens n with
  | none =>
    rw [update_status_not_found hg]
    exact ⟨rfl, rfl, rfl, rfl,
      fun m h hm => ⟨h, hm, rfl, rfl, rfl, rfl, rfl, rfl, rfl⟩⟩
  | some h0 =>
    obtain ⟨h2, htok, hz, hc, _, _, _, hck, htn, hpid, hpn, haid, hw, hcc⟩ :=
      update_status_token_eq s now n st h0 hg
    refine ⟨hz, hc, rfl, rfl, ?_⟩
    intro m h hm
    rw [htok, hget_hsetTok]
    by_cases hmn : m = n
    · rw [if_pos hmn]
      rw [hmn, hg] at hm
      have hh : h = h0 := (Option.some_inj.mp hm).symm
      subst hh
      exact ⟨h2, rfl, hck, htn, hpid, hpn, haid, hw, hcc⟩
    · rw [if_neg hmn]
      exact ⟨h, hm, rfl, rfl, rfl, rfl, rfl, rfl, rfl⟩

/-- C5 witness: updating token 1 of a one-token queue to SKIPPED keeps
the index, the counter, and the token's identity fields. -/
theorem C5_status_mutation_frame_witness :
    (update_status (check_in initState 3 7 "A" none true none).2 4 1 "SKIPPED").2.zindex
        = (check_in initState 3 7 "A" none true none).2.zindex ∧
    ∃ h', hget (update_status (check_in initState 3 7 "A" none true none).2
        4 1 "SKIPPED").2.tokens 1 = some h' ∧
      h'.checkin_time = (newTokenHash 1 3 7 "A" none true none).checkin_time ∧
      h'.is_walk_in = (newTokenHash 1 3 7 "A" none true none).is_walk_in := by
  have hm : hget (check_in initState 3 7 "A" none true none).2.tokens 1 =
      some (newTokenHash 1 3 7 "A" none true none) := by decide
  have h5 := C5_status_mutation_frame (check_in initState 3 7 "A" none true none).2 4 1 "SKIPPED"
  obtain ⟨h', hg', hck, _, _, _, _, hw, _⟩ := h5.2.2.2.2 1 _ hm
  exact ⟨h5.1, h', hg', hck, hw⟩

/-- C10: `update_status` never clears a timestamp: `called_time` is
overwritten (with the current instant) only on WITH_DOCTOR,
`completed_time` only on COMPLETED/NO_SHOW, and otherwise both keep
their previous values, so a previously set timestamp never becomes
empty; in particular recalling to WAITING (or skipping) leaves both
timestamps in place while the status becomes the requested one. -/
theorem C10_timestamps_never_cleared (s : QState) (now n : Nat) (st : String) :
    ∀ h, hget s.tokens n = some h →
      ∃ h', hget (update_status s now n st).2.tokens n = some h' ∧
        h'.status = st ∧
        h'.called_time = (if st = "WITH_DOCTOR" then some now else h.called_time) ∧
        h'.completed_time =
          (if st = "COMPLETED" ∨ st = "NO_SHOW" then some now else h.completed_time) ∧
        (h.called_time ≠ none → h'.called_time ≠ none) ∧
        (h.completed_time ≠ none → h'.completed_time ≠ none) := by
  intro h hg
  obtain ⟨h2, htok, _, _, hst, hcl, hcp, _, _, _, _, _, _, _⟩ :=
    update_status_token_eq s now n st h hg
  refine ⟨h2, ?_, hst, hcl, hcp, ?_, ?_⟩
  · rw [htok, hget_hsetTok]; simp
  · intro hne
    rw [hcl]
    by_cases hq : st = "WITH_DOCTOR"
    · simp [hq]
    · simpa [hq] using hne
  · intro hne
    rw [hcp]
    by_cases hq : st = "COMPLETED" ∨ st = "NO_SHOW"
    · simp [hq]
    · simpa [hq] using hne

/-- C10 witness: recalling a completed token to WAITING keeps its
`completed_time` while its status becomes WAITING. -/
theorem C10_timestamps_never_cleared_witness :
    ∃ h', hget (update_status (update_status
        (check_in initState 3 7 "A" none false none).2 4 1 "COMPLETED").2
        5 1 "WAITING").2.tokens 1 = some h' ∧
      h'.status = "WAITING" ∧ h'.completed_time ≠ none := by
  have hm : hget (update_status (check_in initState 3 7 "A" none false none).2
      4 1 "COMPLETED").2.tokens 1 =
      some { newTokenHash 1 3 7 "A" none false none with
               status := "COMPLETED", completed_time := some 4 } := by decide
  obtain ⟨h', hg', hst, _, hcp, _, hkeep⟩ :=
    C10_timestamps_never_cleared (update_status
      (check_in initState 3 7 "A" none false none).2 4 1 "COMPLETED").2 5 1 "WAITING"
      _ hm
  refine ⟨h', hg', hst, hkeep (by decide)⟩

theorem summaryStep_fields (b : Summary) (t : Token) :
    (summaryStep b t).waiting = b.waiting + (if t.status == "WAITING" then 1 else 0) ∧
    (summaryStep b t).with_doctor = b.with_doctor + (if t.status == "WITH_DOCTOR" then 1 else 0) ∧
    (summaryStep b t).completed = b.completed + (if t.status == "COMPLETED" then 1 else 0) ∧
    (summaryStep b t).skipped = b.skipped + (if t.status == "SKIPPED" then 1 else 0) ∧
    (summaryStep b t).no_show = b.no_show + (if t.status == "NO_SHOW" then 1 else 0) ∧
    (summaryStep b t).total_tokens = b.total_tokens ∧
    (summaryStep b t).current_token = b.current_token ∧
    (summaryStep b t).tokens = b.tokens := by
  unfold summaryStep
  split_ifs with h1 h2 h3 h4 h5 <;> simp_all

theorem summary_foldl (l : List Token) : ∀ b : Summary,
    (l.foldl summaryStep b).waiting =
        b.waiting + l.countP (fun t => t.status == "WAITING") ∧
    (l.foldl summaryStep b).with_doctor =
        b.with_doctor + l.countP (fun t => t.status == "WITH_DOCTOR") ∧
    (l.foldl summaryStep b).completed =
        b.completed + l.countP (fun t => t.status == "COMPLETED") ∧
    (l.foldl summaryStep b).skipped =
        b.skipped + l.countP (fun t => t.status == "SKIPPED") ∧
    (l.foldl summaryStep b).no_show =
        b.no_show + l.countP (fun t => t.status == "NO_SHOW") ∧
    (l.foldl summaryStep b).total_tokens = b.total_tokens ∧
    (l.foldl summaryStep b).current_token = b.current_token ∧
    (l.foldl summaryStep b).tokens = b.tokens := by
  induction l with
  | nil => intro b; simp
  | cons t l ih =>
    intro b
    obtain ⟨s1, s2, s3, s4, s5, s6, s7, s8⟩ := summaryStep_fields b t
    obtain ⟨i1, i2, i3, i4, i5, i6, i7, i8⟩ := ih (summaryStep b t)
    simp only [List.foldl_cons, List.countP_cons]
    refine ⟨?_, ?_, ?_, ?_, ?_, ?_, ?_, ?_⟩
    · rw [i1, s1]; omega
    · rw [i2, s2]; omega
    · rw [i3, s3]; omega
    · rw [i4, s4]; omega
    · rw [i5, s5]; omega
    · rw [i6, s6]
    · rw [i7, s7]
    · rw [i8, s8]

/-- C7: for every state, the summary's per-status counts equal the
number of listed tokens holding each of the five statuses,
`total_tokens` equals the number of listed tokens, `checked_in` equals
exactly waiting + with_doctor (so it never counts SKIPPED, NO_SHOW or
COMPLETED tokens), and the reported current token is the pointer. -/
theorem C7_summary_counts (s : QState) :
    (get_queue_summary s).total_tokens = (get_today_queue s).length ∧
    (get_queue_summary s).waiting =
      (get_today_queue s).countP (fun t => t.status == "WAITING") ∧
    (get_queue_summary s).with_doctor =
      (get_today_queue s).countP (fun t => t.status == "WITH_DOCTOR") ∧
    (get_queue_summary s).completed =
      (get_today_queue s).countP (fun t => t.status == "COMPLETED") ∧
    (get_queue_summary s).skipped =
      (get_today_queue s).countP (fun t => t.status == "SKIPPED") ∧
    (get_queue_summary s).no_show =
      (get_today_queue s).countP (fun t => t.status == "NO_SHOW") ∧
    (get_queue_summary s).checked_in =
      (get_today_queue s).countP (fun t => t.status == "WAITING") +
      (get_today_queue s).countP (fun t => t.status == "WITH_DOCTOR") ∧
    (get_queue_summary s).current_token = get_current_serving s ∧
    (get_queue_summary s).tokens = get_today_queue s := by
  obtain ⟨f1, f2, f3, f4, f5, f6, f7, f8⟩ :=
    summary_foldl (get_today_queue s)
      { total_tokens := (get_today_queue s).length
        checked_in := 0
        waiting := 0
        with_doctor := 0
        completed := 0
        skipped := 0
        no_show := 0
        current_token := get_current_serving s
        tokens := get_today_queue s }
  refine ⟨f6, ?_, ?_, ?_, ?_, ?_, ?_, f7, f8⟩
  · exact f1.trans (Nat.zero_add _)
  · exact f2.trans (Nat.zero_add _)
  · exact f3.trans (Nat.zero_add _)
  · exact f4.trans (Nat.zero_add _)
  · exact f5.trans (Nat.zero_add _)
  · show _ + _ = _
    rw [f1, f2, Nat.zero_add, Nat.zero_add]

/-! ### Token number issuance -/

/-- The number of check-in operations in a sequence. -/
def checkInCount : List Op → Nat
  | [] => 0
  | op :: rest =>
    match op with
    | Op.checkIn _ _ _ _ _ _ => checkInCount rest + 1
    | _ => checkInCount rest

/-- The token numbers returned by the check-in calls of an operation
sequence, in call order. -/
def checkInNumbers : QState → List Op → List Nat
  | _, [] => []
  | s, op :: rest =>
    match op with
    | Op.checkIn now pid pn aid w cc =>
        (check_in s now pid pn aid w cc).1.token_number ::
          checkInNumbers (check_in s now pid pn aid w cc).2 rest
    | _ => checkInNumbers (applyOp s op) rest

theorem counter_update_status (s : QState) (now n : Nat) (st : String) :
    (update_status s now n st).2.counter = s.counter := by
  cases hg : hget s.tokens n with
  | none => rw [update_status_not_found hg]
  | some h =>
    obtain ⟨h2, _, _, hc, _⟩ := update_status_token_eq s now n st h hg
    exact hc

theorem counter_call_next (s : QState) (now : Nat) :
    (call_next_patient s now).2.counter = s.counter := by
  unfold call_next_patient
  cases hf : (get_today_queue s).find? (fun t => t.status == "WAITING") with
  | none => rfl
  | some t => exact counter_update_status s now t.token_number "WITH_DOCTOR"

theorem checkInNumbers_eq (ops : List Op) : ∀ s : QState,
    checkInNumbers s ops = List.range' (s.counter + 1) (checkInCount ops) := by
  induction ops with
  | nil => intro s; rfl
  | cons op rest ih =>
    intro s
    cases op with
    | checkIn now pid pn aid w cc =>
      show (check_in s now pid pn aid w cc).1.token_number ::
          checkInNumbers (check_in s now pid pn aid w cc).2 rest =
        List.range' (s.counter + 1) (checkInCount rest + 1)
      rw [ih, List.range'_succ]
      rfl
    | updStatus now n st =>
      show checkInNumbers (update_status s now n st).2 rest = _
      rw [ih, counter_update_status]
      rfl
    | callNext now =>
      show checkInNumbers (call_next_patient s now).2 rest = _
      rw [ih, counter_call_next]
      rfl
    | skipTok now n =>
      show checkInNumbers (update_status s now n "SKIPPED").2 rest = _
      rw [ih, counter_update_status]
      rfl
    | recallTok now n =>
      show checkInNumbers (update_status s now n "WAITING").2 rest = _
      rw [ih, counter_update_status]
      rfl

/-- C3: starting from the untouched keyspace of a date, the successive
check-in calls of any operation sequence are issued token numbers
exactly 1, 2, ..., N in call order (N the number of check-ins), with no
repeats; in particular the very first check-in returns 1 with no prior
initialization. -/
theorem C3_token_number_issuance :
    (∀ ops : List Op, checkInNumbers initState ops =
        List.range' 1 (checkInCount ops)) ∧
    (∀ ops : List Op, (checkInNumbers initState ops).Nodup) ∧
    (∀ (now pid : Nat) (pn : String) (aid : Option Nat) (w : Bool)
        (cc : Option String),
      (check_in initState now pid pn aid w cc).1.token_number = 1) := by
  refine ⟨fun ops => checkInNumbers_eq ops initState, fun ops => ?_,
    fun _ _ _ _ _ _ => rfl⟩
  rw [checkInNumbers_eq]
  exact List.nodup_range' _ _

/-- C8: checking in with `is_walk_in = b` stores the literal wire string
`"True"`/`"False"` in the token record, and reading the queue back
parses it to exactly `b` again: serialize-then-parse is the identity. -/
theorem C8_walk_in_round_trip (s : QState) (now pid : Nat) (pn : String)
    (aid : Option Nat) (b : Bool) (cc : Option String) :
    (check_in s now pid pn aid b cc).1.is_walk_in =
      (if b then "True" else "False") ∧
    (hget (check_in s now pid pn aid b cc).2.tokens (s.counter + 1)).map
        (fun h => h.is_walk_in) = some (if b then "True" else "False") ∧
    ∃ t, t ∈ get_today_queue (check_in s now pid pn aid b cc).2 ∧
      t.token_number = s.counter + 1 ∧ t.is_walk_in = b := by
  rw [check_in_eq]
  refine ⟨rfl, ?_, ?_⟩
  · rw [hget_hsetTok]
    simp
    cases b <;> rfl
  · refine ⟨parseTok (newTokenHash (s.counter + 1) now pid pn aid b cc), ?_, rfl, ?_⟩
    · unfold get_today_queue zrange
      apply List.mem_filterMap.mpr
      refine ⟨s.counter + 1, ?_, ?_⟩
      · exact List.mem_map.mpr ⟨(s.counter + 1, now), mem_zadd_self _ _ _, rfl⟩
      · rw [hget_hsetTok]
        simp
    · show (pyStrBool b == "True") = b
      cases b <;> rfl

/-! ### The current-serving pointer -/

/-- A queue history in which token 1 is checked in, called to the
doctor, and then recalled to WAITING. -/
def c1ops : List Op :=
  [Op.checkIn 0 7 "Asha" none false none,
   Op.updStatus 1 1 "WITH_DOCTOR",
   Op.recallTok 2 1]

/-- The state reached by `c1ops`. -/
def c1state : QState := run initState c1ops

/-- C1 counterexample: after check-in, call, recall, the current-serving
pointer is still set to 1 although the queue's only token is WAITING and
no token has status WITH_DOCTOR — the pointer is not cleared when a
token leaves WITH_DOCTOR via recall (the same holds for SKIPPED). -/
theorem C1_counterexample :
    get_current_serving c1state = some 1 ∧
    (get_today_queue c1state).length = 1 ∧
    (get_today_queue c1state).all (fun t => !(t.status == "WITH_DOCTOR")) = true ∧
    (update_status c1state 3 1 "SKIPPED").2.current = some 1 := by
  refine ⟨by decide, by decide, by decide, by decide⟩

/-- C1 (amended): in every reachable state the pointer, when set, names
an existing token record whose `called_time` is set; a status update
sets the pointer exactly when the new status is WITH_DOCTOR, clears it
exactly when the new status is COMPLETED or NO_SHOW and the pointer
currently equals that token's number, and updates to WAITING (recall)
or SKIPPED never touch the pointer — so the pointer can stay set with
no token WITH_DOCTOR. -/
theorem C1_pointer_behaviour :
    (∀ s : QState, Reachable s → ∀ n, get_current_serving s = some n →
      ∃ h, hget s.tokens n = some h ∧ h.called_time ≠ none) ∧
    (∀ (s : QState) (now n : Nat), hget s.tokens n ≠ none →
      (update_status s now n "WITH_DOCTOR").2.current = some n) ∧
    (∀ (s : QState) (now n : Nat) (st : String),
      st = "WAITING" ∨ st = "SKIPPED" →
      (update_status s now n st).2.current = s.current) ∧
    (∀ (s : QState) (now n : Nat) (st : String),
      st = "COMPLETED" ∨ st = "NO_SHOW" → hget s.tokens n ≠ none →
      (update_status s now n st).2.current =
        (if s.current = some n then none else s.current)) := by
  refine ⟨?_, ?_, ?_, ?_⟩
  · intro s hs n hcur
    exact (inv_reachable hs).2.2.2 n hcur
  · intro s now n hne
    cases hg : hget s.tokens n with
    | none => exact absurd hg hne
    | some h => rw [update_status_wd hg]
  · intro s now n st hst
    cases hg : hget s.tokens n with
    | none => rw [update_status_not_found hg]
    | some h =>
      have hwd : ¬ st = "WITH_DOCTOR" := by
        rcases hst with h' | h' <;> simp [h']
      have hdone : ¬ (st = "COMPLETED" ∨ st = "NO_SHOW") := by
        rcases hst with h' | h' <;> simp [h']
      rw [update_status_other hg hwd hdone]
  · intro s now n st hst hne
    cases hg : hget s.tokens n with
    | none => exact absurd hg hne
    | some h => rw [update_status_done hg hst]

/-- The state with token 1 checked in and called. -/
def c1wit : QState :=
  run initState [Op.checkIn 0 7 "Asha" none false none,
                 Op.updStatus 1 1 "WITH_DOCTOR"]

/-- C1 witness: the amended pointer behaviour evaluated on the concrete
called-token state. -/
theorem C1_pointer_behaviour_witness :
    (∃ h, hget c1wit.tokens 1 = some h ∧ h.called_time ≠ none) ∧
    (update_status c1wit 5 1 "WITH_DOCTOR").2.current = some 1 ∧
    (update_status c1wit 5 1 "WAITING").2.current = c1wit.current ∧
    (update_status c1wit 5 1 "COMPLETED").2.current =
      (if c1wit.current = some 1 then none else c1wit.current) :=
  ⟨C1_pointer_behaviour.1 c1wit
      ⟨[Op.checkIn 0 7 "Asha" none false none, Op.updStatus 1 1 "WITH_DOCTOR"], rfl⟩
      1 (by decide),
   C1_pointer_behaviour.2.1 c1wit 5 1 (by decide),
   C1_pointer_behaviour.2.2.1 c1wit 5 1 "WAITING" (Or.inl rfl),
   C1_pointer_behaviour.2.2.2 c1wit 5 1 "COMPLETED" (Or.inl rfl) (by decide)⟩

/-! ### Ordering of the listed queue -/

/-- Ten walk-in check-ins, all at the same instant (two clock reads in
the same microsecond render the same timestamp). -/
def tenCheckIns : List Op :=
  [Op.checkIn 0 1 "p1" none true none,
   Op.checkIn 0 2 "p2" none true none,
   Op.checkIn 0 3 "p3" none true none,
   Op.checkIn 0 4 "p4" none true none,
   Op.checkIn 0 5 "p5" none true none,
   Op.checkIn 0 6 "p6" none true none,
   Op.checkIn 0 7 "p7" none true none,
   Op.checkIn 0 8 "p8" none true none,
   Op.checkIn 0 9 "p9" none true none,
   Op.checkIn 0 10 "p10" none true none]

/-- The state reached by the ten simultaneous check-ins. -/
def c6state : QState := run initState tenCheckIns

/-- C6 counterexample: ten tokens checked in at the same instant are
listed in the order 1, 10, 2, 3, ..., 9 — the score tie is broken by
the lexicographic order of the decimal member strings, so token 10
precedes token 2, contradicting the claimed numeric tie-break. -/
theorem C6_counterexample :
    (get_today_queue c6state).map (fun t => t.token_number) =
      [1, 10, 2, 3, 4, 5, 6, 7, 8, 9] ∧
    (get_today_queue c6state).all (fun t => t.checkin_time == 0) = true := by
  refine ⟨by decide, by decide⟩

/-- The order in which `get_today_queue` lists tokens: ascending
check-in instant, ties broken by the byte-lexicographic order of the
decimal rendering of the token number. -/
def tokLe (t u : Token) : Prop :=
  t.checkin_time < u.checkin_time ∨
    (t.checkin_time = u.checkin_time ∧
      clLe (decStr t.token_number) (decStr u.token_number) = true)

/-- C6 (amended): in every reachable state, `get_today_queue` returns
the date's tokens sorted ascending by check-in instant, with equal
instants ordered by the lexicographic order of the decimal token-number
string (so a token numbered 10 precedes a token numbered 2 checked in
at the same instant), not by numeric token number. -/
theorem C6_list_today_sorted (s : QState) (hs : Reachable s) :
    List.Pairwise tokLe (get_today_queue s) := by
  obtain ⟨h1, h2, h3, h4⟩ := inv_reachable hs
  unfold get_today_queue zrange
  rw [List.filterMap_map]
  have h3' : List.Pairwise
      (fun q q' => zr q q' ∧ zcorr s q ∧ zcorr s q') s.zindex :=
    List.Pairwise.imp_of_mem (fun ha hb hr => ⟨hr, h2 _ ha, h2 _ hb⟩) h3
  refine List.Pairwise.filterMap _ ?_ h3'
  intro q q' hqq t ht u hu
  obtain ⟨hr, ⟨hA, hgA, hcA, hnA⟩, ⟨hB, hgB, hcB, hnB⟩⟩ := hqq
  simp only [Function.comp] at ht hu
  rw [hgA] at ht
  rw [hgB] at hu
  simp only [Option.map_some', Option.mem_def, Option.some_inj] at ht hu
  subst ht
  subst hu
  rcases zr_cases hr with hlt | ⟨heq, hle⟩
  · left
    show hA.checkin_time < hB.checkin_time
    rw [hcA, hcB]
    exact hlt
  · right
    constructor
    · show hA.checkin_time = hB.checkin_time
      rw [hcA, hcB]
      exact heq
    · show clLe (decStr hA.token_number) (decStr hB.token_number) = true
      rw [hnA, hnB]
      exact hle

/-- C6 witness: the amended ordering theorem evaluated on the concrete
ten-token state. -/
theorem C6_list_today_sorted_witness :
    List.Pairwise tokLe (get_today_queue c6state) :=
  C6_list_today_sorted c6state ⟨tenCheckIns, rfl⟩

/-! ### call_next -/

theorem find?_split {α : Type} (p : α → Bool) :
    ∀ (l : List α) (t : α), l.find? p = some t →
      ∃ l1 l2, l = l1 ++ t :: l2 ∧ ∀ u ∈ l1, p u = false := by
  intro l
  induction l with
  | nil => intro t ht; simp at ht
  | cons a l ih =>
    intro t ht
    by_cases ha : p a
    · rw [List.find?_cons_of_pos _ ha] at ht
      obtain rfl : a = t := Option.some_inj.mp ht
      exact ⟨[], l, rfl, by simp⟩
    · rw [List.find?_cons_of_neg _ ha] at ht
      obtain ⟨l1, l2, rfl, hl1⟩ := ih t ht
      refine ⟨a :: l1, l2, rfl, ?_⟩
      intro u hu
      rcases List.mem_cons.mp hu with hu | hu
      · subst hu; exact Bool.eq_false_iff.mpr ha
      · exact hl1 u hu

theorem get_today_queue_mem {s : QState}
    (hInv1 : ∀ p ∈ s.tokens, p.1 ≤ s.counter ∧ p.2.token_number = p.1)
    {t : Token} (ht : t ∈ get_today_queue s) :
    ∃ h, hget s.tokens t.token_number = some h ∧ t = parseTok h := by
  unfold get_today_queue zrange at ht
  obtain ⟨n, _, hf⟩ := List.mem_filterMap.mp ht
  obtain ⟨h, hg, hp⟩ := Option.map_eq_some'.mp hf
  have hkey : h.token_number = n := (hInv1 (n, h) (hget_mem hg)).2
  have htn : t.token_number = n := by rw [← hp]; exact hkey
  rw [htn]
  exact ⟨h, hg, hp.symm⟩

/-- The ten simultaneous check-ins followed by skipping every token
except 2 and 10. -/
def c2ops : List Op :=
  tenCheckIns ++
    [Op.skipTok 1 1, Op.skipTok 1 3, Op.skipTok 1 4, Op.skipTok 1 5,
     Op.skipTok 1 6, Op.skipTok 1 7, Op.skipTok 1 8, Op.skipTok 1 9]

/-- The state in which only tokens 2 and 10 are WAITING, all check-ins
having happened at the same instant. -/
def c2state : QState := run initState c2ops

/-- C2 counterexample: in a reachable state where tokens 2 and 10 are
the WAITING tokens and all check-in instants are equal, `call_next`
returns token 10, not the lowest-numbered WAITING token 2 — the index
tie-break is lexicographic on the decimal member string, not numeric. -/
theorem C2_counterexample :
    ((call_next_patient c2state 99).1.map (fun r => r.token_number)) = some 10 ∧
    (get_today_queue c2state).any
      (fun t => t.token_number == 2 && (t.status == "WAITING")) = true := by
  refine ⟨by decide, by decide⟩

/-- C2 (amended): in every reachable state, `call_next` returns none
(leaving the state unchanged) when no listed token is WAITING, and
otherwise acts on the first WAITING token in check-in-index order
(ascending instant, ties by lexicographic decimal token string — the
lowest-numbered WAITING token whenever instants are distinct): it
returns that token with status WITH_DOCTOR and `called_time` set, and
in the resulting state that token's record is WITH_DOCTOR with
`called_time` set and the current-serving pointer equals its number. -/
theorem C2_call_next_spec (s : QState) (now : Nat) (hs : Reachable s) :
    ((get_today_queue s).find? (fun t => t.status == "WAITING") = none →
      call_next_patient s now = (none, s)) ∧
    (∀ t, (get_today_queue s).find? (fun t => t.status == "WAITING") = some t →
      t.status = "WAITING" ∧
      (∃ l1 l2, get_today_queue s = l1 ++ t :: l2 ∧
        ∀ u ∈ l1, ¬ u.status = "WAITING") ∧
      (∃ r, (call_next_patient s now).1 = some r ∧
        r.token_number = t.token_number ∧
        r.status = "WITH_DOCTOR" ∧
        r.called_time = some now) ∧
      (call_next_patient s now).2.current = some t.token_number ∧
      (∃ h', hget (call_next_patient s now).2.tokens t.token_number = some h' ∧
        h'.status = "WITH_DOCTOR" ∧ h'.called_time = some now)) := by
  have hInv := inv_reachable hs
  constructor
  · intro hf
    unfold call_next_patient
    rw [hf]
  · intro t hf
    have htw : t.status = "WAITING" := by
      have := List.find?_some hf
      simpa using this
    have htmem : t ∈ get_today_queue s := List.mem_of_find?_eq_some hf
    obtain ⟨h, hg, hp⟩ := get_today_queue_mem hInv.1 htmem
    have hcall : call_next_patient s now =
        update_status s now t.token_number "WITH_DOCTOR" := by
      unfold call_next_patient
      rw [hf]
    refine ⟨htw, ?_, ?_, ?_, ?_⟩
    · obtain ⟨l1, l2, hsplit, hl1⟩ := find?_split _ _ _ hf
      refine ⟨l1, l2, hsplit, ?_⟩
      intro u hu
      have := hl1 u hu
      simpa using this
    · refine ⟨mkUpd { h with status := "WITH_DOCTOR", called_time := some now },
        ?_, ?_, rfl, rfl⟩
      · rw [hcall, update_status_wd hg]
      · show h.token_number = t.token_number
        rw [hp]
        rfl
    · rw [hcall, update_status_wd hg]
    · refine ⟨{ h with status := "WITH_DOCTOR", called_time := some now },
        ?_, rfl, rfl⟩
      rw [hcall, update_status_wd hg]
      show hget (hsetTok s.tokens t.token_number _) t.token_number = _
      rw [hget_hsetTok]
      simp

/-- The state with one WAITING walk-in token. -/
def c2wit : QState := run initState [Op.checkIn 0 5 "Asha" none true none]

/-- C2 witness: the amended call-next theorem evaluated on the concrete
one-token state — token 1 is found WAITING, called, and pointed at. -/
theorem C2_call_next_spec_witness :
    ∃ t, (get_today_queue c2wit).find? (fun u => u.status == "WAITING") = some t ∧
      t.token_number = 1 ∧
      (∃ r, (call_next_patient c2wit 9).1 = some r ∧
        r.token_number = t.token_number ∧
        r.status = "WITH_DOCTOR" ∧
        r.called_time = some 9) ∧
      (call_next_patient c2wit 9).2.current = some t.token_number := by
  have hmain := (C2_call_next_spec c2wit 9
      ⟨[Op.checkIn 0 5 "Asha" none true none], rfl⟩).2
      (parseTok (newTokenHash 1 0 5 "Asha" none true none)) (by decide)
  exact ⟨parseTok (newTokenHash 1 0 5 "Asha" none true none), by decide, rfl,
    hmain.2.2.1, hmain.2.2.2.1⟩

/-! ### Token sequence counter lifetime -/

/-- C9 counterexample: after calls at instants 0 and 1, the counter
key's expiry deadline is 86401 — the second call moved it past
0 + 86400 — and a call 24 hours after the *first* call still continues
the sequence (returning 3, not a restarted 1): later increments do
extend the counter's lifetime. -/
theorem C9_counterexample :
    (seqRun none [0, 1]).2 = some (2, 86401) ∧
    (seqNext (seqRun none [0, 1]).2 86400).1 = 3 ∧
    (3 : Nat) ≠ 1 := by
  refine ⟨by decide, by decide, by decide⟩

/-- C9 (amended): every call of the sequencer resets the counter key's
time-to-live to 24 hours from that call, so the counter expires 24
hours after the most recent call, not the first: a call strictly before
the current deadline continues the sequence, and a call at or after the
deadline (or on a never-touched counter) restarts it at 1. -/
theorem C9_sequencer_ttl (s : Option (Nat × Nat)) (now : Nat) :
    (seqNext s now).2 = some ((seqNext s now).1, now + 86400) ∧
    (s = none → (seqNext s now).1 = 1) ∧
    (∀ v dl, s = some (v, dl) → now < dl → (seqNext s now).1 = v + 1) ∧
    (∀ v dl, s = some (v, dl) → dl ≤ now → (seqNext s now).1 = 1) := by
  refine ⟨rfl, ?_, ?_, ?_⟩
  · intro h
    subst h
    rfl
  · intro v dl h hlt
    subst h
    show (if now < dl then v else 0) + 1 = v + 1
    rw [if_pos hlt]
  · intro v dl h hle
    subst h
    show (if now < dl then v else 0) + 1 = 1
    rw [if_neg (Nat.not_lt.mpr hle)]

/-- C9 witness: the amended time-to-live behaviour evaluated at concrete
counter states — a live counter continues, an expired one restarts. -/
theorem C9_sequencer_ttl_witness :
    (seqNext (some (2, 86401)) 86400).2 =
      some ((seqNext (some (2, 86401)) 86400).1, 86400 + 86400) ∧
    (seqNext (some (2, 86401)) 86400).1 = 3 ∧
    (seqNext (some (2, 86400)) 86400).1 = 1 ∧
    (seqNext none 7).1 = 1 :=
  ⟨(C9_sequencer_ttl (some (2, 86401)) 86400).1,
   (C9_sequencer_ttl (some (2, 86401)) 86400).2.2.1 2 86401 rfl (by decide),
   (C9_sequencer_ttl (some (2, 86400)) 86400).2.2.2 2 86400 rfl (by decide),
   (C9_sequencer_ttl none 7).2.1 rfl⟩

end QureQueue
